import Mathlib

/-!
Shallow embedding of the `text_chunking` indexing engine
(`chunking.py`, `embeddings.py`, `index.py`, `api.py`) in Lean 4,
together with proofs of the specification claims.

Modelling conventions:
* Python strings are Lean `String`s; character-level operations
  (slicing, strip, split) are modelled on `List Char`.
* Python `float` arithmetic is idealised as real arithmetic (`ℝ`).
* Python `int` is `Int` (arbitrary precision, as in Python); values that
  the source guarantees non-negative are stored as `Nat`.
* Fallible Python code (raising `ValueError` / `KeyError` / `TypeError`)
  is modelled with `Except String`.
* The external `hnswlib` dependency is modelled from its documented
  behaviour for the configuration used by the source
  (`space="cosine"`, element counts far below `ef`): vectors are
  L2-normalised on insertion, and `knn_query` returns the `k` nearest
  stored items by cosine distance, nearest first.  Its `k` argument is a
  C++ `size_t`; a negative Python int fails the argument conversion.
-/

/-! ## Python string primitives -/

/-- Whether a character is whitespace for Python's `str.strip()` /
`str.split()` (the code points for which `str.isspace()` is true). -/
def pyIsSpace (c : Char) : Bool :=
  let n := c.toNat
  (0x09 ≤ n && n ≤ 0x0d) || (0x1c ≤ n && n ≤ 0x1f) || n == 0x20 ||
    n == 0x85 || n == 0xa0 || n == 0x1680 || (0x2000 ≤ n && n ≤ 0x200a) ||
    n == 0x2028 || n == 0x2029 || n == 0x202f || n == 0x205f || n == 0x3000

/-- Python `str.strip()` on a character list: remove leading and trailing
whitespace. -/
def pyStrip (l : List Char) : List Char :=
  ((l.dropWhile pyIsSpace).reverse.dropWhile pyIsSpace).reverse

/-- Auxiliary worker for `pySplitWS`: `cur` is the (reversed) token being
accumulated. -/
def pySplitAux : List Char → List Char → List (List Char)
  | [], cur => if cur.isEmpty then [] else [cur.reverse]
  | c :: rest, cur =>
    if pyIsSpace c then
      if cur.isEmpty then pySplitAux rest [] else cur.reverse :: pySplitAux rest []
    else pySplitAux rest (c :: cur)

/-- Python `str.split()` with no arguments: split on runs of whitespace,
producing no empty tokens. -/
def pySplitWS (l : List Char) : List (List Char) := pySplitAux l []

/-- Python `str.lower()`.  The source only ever lowercases hash-input
tokens; we model the ASCII case mapping (Lean's `Char.toLower`), which
agrees with Python on ASCII text. -/
def pyLower (l : List Char) : List Char := l.map Char.toLower

/-- UTF-8 encoding of one unicode scalar value (Python `str.encode("utf-8")`
acts code point by code point). -/
def utf8Bytes (c : Char) : List Nat :=
  let n := c.toNat
  if n < 0x80 then [n]
  else if n < 0x800 then
    [0xc0 ||| (n >>> 6), 0x80 ||| (n &&& 0x3f)]
  else if n < 0x10000 then
    [0xe0 ||| (n >>> 12), 0x80 ||| ((n >>> 6) &&& 0x3f), 0x80 ||| (n &&& 0x3f)]
  else
    [0xf0 ||| (n >>> 18), 0x80 ||| ((n >>> 12) &&& 0x3f),
      0x80 ||| ((n >>> 6) &&& 0x3f), 0x80 ||| (n &&& 0x3f)]

/-- UTF-8 byte sequence of a string (Python `s.encode("utf-8")`). -/
def strBytes (s : String) : List Nat := (s.data.map utf8Bytes).flatten

/-! ## SHA-256 (model of `hashlib.sha256(...).digest()`)

A direct transcription of FIPS 180-4 over `Nat`, with 32-bit words
represented modulo `2 ^ 32`. -/

/-- Truncate to a 32-bit word. -/
def w32 (n : Nat) : Nat := n % 4294967296

/-- Right rotation of a 32-bit word. -/
def rotr32 (x n : Nat) : Nat := w32 ((x >>> n) ||| (x <<< (32 - n)))

/-- SHA-256 big sigma 0. -/
def bSig0 (x : Nat) : Nat := (rotr32 x 2) ^^^ (rotr32 x 13) ^^^ (rotr32 x 22)

/-- SHA-256 big sigma 1. -/
def bSig1 (x : Nat) : Nat := (rotr32 x 6) ^^^ (rotr32 x 11) ^^^ (rotr32 x 25)

/-- SHA-256 small sigma 0. -/
def sSig0 (x : Nat) : Nat := (rotr32 x 7) ^^^ (rotr32 x 18) ^^^ (x >>> 3)

/-- SHA-256 small sigma 1. -/
def sSig1 (x : Nat) : Nat := (rotr32 x 17) ^^^ (rotr32 x 19) ^^^ (x >>> 10)

/-- SHA-256 round constants (FIPS 180-4, written in decimal). -/
def shaK : List Nat :=
  [1116352408, 1899447441, 3049323471, 3921009573, 961987163,
   1508970993, 2453635748, 2870763221, 3624381080, 310598401,
   607225278, 1426881987, 1925078388, 2162078206, 2614888103,
   3248222580, 3835390401, 4022224774, 264347078, 604807628,
   770255983, 1249150122, 1555081692, 1996064986, 2554220882,
   2821834349, 2952996808, 3210313671, 3336571891, 3584528711,
   113926993, 338241895, 666307205, 773529912, 1294757372,
   1396182291, 1695183700, 1986661051, 2177026350, 2456956037,
   2730485921, 2820302411, 3259730800, 3345764771, 3516065817,
   3600352804, 4094571909, 275423344, 430227734, 506948616,
   659060556, 883997877, 958139571, 1322822218, 1537002063,
   1747873779, 1955562222, 2024104815, 2227730452, 2361852424,
   2428436474, 2756734187, 3204031479, 3329325298]

/-- SHA-256 initial hash value (FIPS 180-4, written in decimal). -/
def shaH0 : List Nat :=
  [1779033703, 3144134277, 1013904242, 2773480762,
   1359893119, 2600822924, 528734635, 1541459225]

/-- Big-endian byte decomposition of `n` into `k` bytes. -/
def beBytes (k n : Nat) : List Nat :=
  (List.range k).map fun i => (n >>> (8 * (k - 1 - i))) % 256

/-- Big-endian value of a byte list (Python `int.from_bytes(bs, "big")`). -/
def beValue (bs : List Nat) : Nat := bs.foldl (fun a b => a * 256 + b) 0

/-- SHA-256 message padding: append `0x80`, zeros, and the 64-bit
big-endian bit length, up to a multiple of 64 bytes. -/
def shaPad (msg : List Nat) : List Nat :=
  let len := msg.length
  let zeros := (64 + 55 - len % 64) % 64
  msg ++ [0x80] ++ List.replicate zeros 0 ++ beBytes 8 (8 * len)

/-- The 16 big-endian 32-bit words of one 64-byte block. -/
def blockWords (block : List Nat) : List Nat :=
  (List.range 16).map fun i => beValue ((block.drop (4 * i)).take 4)

/-- Extend 16 message words to the 64-word SHA-256 message schedule. -/
def shaSchedule (ws : List Nat) : List Nat :=
  (List.range 48).foldl
    (fun acc _ =>
      let t := acc.length
      acc ++ [w32 (sSig1 (acc.getD (t - 2) 0) + acc.getD (t - 7) 0 +
        sSig0 (acc.getD (t - 15) 0) + acc.getD (t - 16) 0)])
    ws

/-- One SHA-256 compression round. -/
def shaRound (st : List Nat) (kw : Nat × Nat) : List Nat :=
  let a := st.getD 0 0
  let b := st.getD 1 0
  let c := st.getD 2 0
  let d := st.getD 3 0
  let e := st.getD 4 0
  let f := st.getD 5 0
  let g := st.getD 6 0
  let h := st.getD 7 0
  let t1 := w32 (h + bSig1 e + ((e &&& f) ^^^ ((w32 (4294967295 - e)) &&& g)) + kw.1 + kw.2)
  let t2 := w32 (bSig0 a + ((a &&& b) ^^^ (a &&& c) ^^^ (b &&& c)))
  [w32 (t1 + t2), a, b, c, w32 (d + t1), e, f, g]

/-- Process one 64-byte block, updating the running hash `H`. -/
def shaBlock (H : List Nat) (block : List Nat) : List Nat :=
  let ws := shaSchedule (blockWords block)
  let st := (shaK.zip ws).foldl (fun st kw => shaRound st kw) H
  (List.range 8).map fun i => w32 (H.getD i 0 + st.getD i 0)

/-- SHA-256 digest of a byte sequence, as 32 bytes
(model of `hashlib.sha256(data).digest()`). -/
def sha256 (msg : List Nat) : List Nat :=
  let padded := shaPad msg
  let blocks := (List.range (padded.length / 64)).map fun i =>
    (padded.drop (64 * i)).take 64
  ((blocks.foldl shaBlock shaH0).map (beBytes 4)).flatten

/-! ## Chunking policies (`chunking.py`) -/

/-- Sliding-window chunker configuration, as validated by
`SlidingWindowChunker.__init__`.  After validation both parameters are
non-negative, so they are stored as `Nat`. -/
structure Sliding where
  windowChars : Nat
  overlapChars : Nat
  deriving DecidableEq, Repr

/-- Constructor of `SlidingWindowChunker`: validates
`window_chars > 0` and `0 <= overlap_chars < window_chars`, raising
`ValueError` otherwise. -/
def mkSliding (windowChars overlapChars : Int) : Except String Sliding :=
  if windowChars ≤ 0 then .error "window_chars must be positive"
  else if overlapChars < 0 then .error "overlap_chars cannot be negative"
  else if windowChars ≤ overlapChars then
    .error "overlap_chars must be smaller than window_chars"
  else .ok ⟨windowChars.toNat, overlapChars.toNat⟩

/-- The window start offsets generated by `range(0, L, step)` for
`step > 0`: the multiples of `step` below `L`, i.e. the first
`⌈L / step⌉` multiples. -/
def rawStarts (L step : Nat) : List Nat :=
  (List.range ((L + step - 1) / step)).map fun i => i * step

/-- The raw windows `content[start : start + window_chars]` of
`SlidingWindowChunker.chunk`, before stripping and empty filtering. -/
def slidingRawWindows (c : Sliding) (content : List Char) : List (List Char) :=
  (rawStarts content.length (c.windowChars - c.overlapChars)).map fun s =>
    (content.drop s).take c.windowChars

/-- Body of `SlidingWindowChunker.chunk`.  The `step = 0` branch is
unreachable for configurations produced by `mkSliding` (where
`overlap_chars < window_chars`); in Python a zero step would raise in
`range`. -/
def slidingChunk (c : Sliding) (text : String) : List String :=
  let content := pyStrip text.data
  if content.isEmpty then []
  else if c.windowChars - c.overlapChars == 0 then []
  else
    (((slidingRawWindows c content).map pyStrip).filter
      (fun w => !w.isEmpty)).map fun l => ⟨l⟩

/-- Body of `ParagraphChunker.chunk`: split on the literal separator
`"\n\n"`, strip each part, drop empties. -/
def paragraphChunk (text : String) : List String :=
  ((text.splitOn "\n\n").map (fun p => pyStrip p.data)).filterMap fun p =>
    if p.isEmpty then none else some ⟨p⟩

/-- Body of `WholeDocumentChunker.chunk`: the stripped text as a single
chunk, or nothing if it strips to empty. -/
def wholeDocumentChunk (text : String) : List String :=
  let cleaned := pyStrip text.data
  if cleaned.isEmpty then [] else [⟨cleaned⟩]

/-- The closed set of chunking policies used by the service. -/
inductive ChunkingPolicy where
  | sliding (c : Sliding)
  | paragraph
  | wholeDocument
  deriving DecidableEq

/-- The `name` attribute set by each policy's constructor. -/
def ChunkingPolicy.pname : ChunkingPolicy → String
  | .sliding _ => "sliding_window"
  | .paragraph => "paragraph"
  | .wholeDocument => "whole_document"

/-- Dispatch of the `chunk` method. -/
def ChunkingPolicy.chunk : ChunkingPolicy → String → List String
  | .sliding c, text => slidingChunk c text
  | .paragraph, text => paragraphChunk text
  | .wholeDocument, text => wholeDocumentChunk text

/-! ## Embeddings (`embeddings.py`, hashing strategy) -/

/-- The tokens of `HashedEmbeddingModel.embed_text`:
`[token.lower() for token in text.split() if token]` (the `if token`
filter is vacuous since `split()` yields no empty tokens). -/
def hashTokens (text : String) : List String :=
  (pySplitWS text.data).map fun tok => ⟨pyLower tok⟩

/-- Bucket index of one token: first 4 bytes of
`sha256(f"{name}:{token}".encode("utf-8"))` read big-endian, modulo the
dimensionality. -/
def bucketOf (name : String) (dims : Nat) (token : String) : Nat :=
  beValue ((sha256 (strBytes (name ++ ":" ++ token))).take 4) % dims

/-- Increment entry `i` of a natural-number vector. -/
def incAt (v : List Nat) (i : Nat) : List Nat := v.set i (v.getD i 0 + 1)

/-- The integer bucket-count vector accumulated by
`HashedEmbeddingModel._vector_from_tokens` before normalisation. -/
def countVector (name : String) (dims : Nat) (text : String) : List Nat :=
  (hashTokens text).foldl (fun v tok => incAt v (bucketOf name dims tok))
    (List.replicate dims 0)

/-- Squared Euclidean norm of a real vector. -/
def l2normSq (v : List ℝ) : ℝ := (v.map fun x => x * x).sum

/-- Euclidean norm of a real vector. -/
noncomputable def l2norm (v : List ℝ) : ℝ := Real.sqrt (l2normSq v)

/-- The float count vector: Python's accumulator starts as `[0.0] * dims`
and holds float counts; in the model the natural-number counts are cast
to `ℝ`. -/
def floatVec (v : List Nat) : List ℝ := v.map fun n => ((n : Nat) : ℝ)

/-- The divisor `math.sqrt(sum(value * value for value in vector)) or 1.0`
of `_vector_from_tokens`: the Euclidean norm, with a zero norm (falsy in
Python) replaced by `1.0`. -/
noncomputable def pyNorm (v : List ℝ) : ℝ :=
  if l2norm v = 0 then 1 else l2norm v

/-- Result of `HashedEmbeddingModel._vector_from_tokens` composed with
`embed_text`: the (float) count vector with every element divided by
`pyNorm`. -/
noncomputable def hashedEmbed (name : String) (dims : Nat) (text : String) : List ℝ :=
  (floatVec (countVector name dims text)).map fun x =>
    x / pyNorm (floatVec (countVector name dims text))

/-- The embedding models of the system.  The sentence-transformer backend
is an external collaborator: its dimensionality and embedding function
are carried as data of the constructor (supplied by the environment),
keeping it an opaque-but-deterministic function as the spec requires. -/
inductive EmbeddingModel where
  | hashed (name : String) (dims : Nat)
  | sentenceTransformer (name checkpoint : String) (dims : Nat)
      (embed : String → List ℝ)

/-- The `name` attribute of a model. -/
def EmbeddingModel.mname : EmbeddingModel → String
  | .hashed n _ => n
  | .sentenceTransformer n _ _ _ => n

/-- The `dimensions` property of a model. -/
def EmbeddingModel.dimensions : EmbeddingModel → Nat
  | .hashed _ d => d
  | .sentenceTransformer _ _ d _ => d

/-- Dispatch of `embed_text`. -/
noncomputable def EmbeddingModel.embedText : EmbeddingModel → String → List ℝ
  | .hashed n d, text => hashedEmbed n d text
  | .sentenceTransformer _ _ _ f, text => f text

/-! ## Vector index (`index.py`)

`hnswlib` modelling: for `space="cosine"` the Python binding normalises
each vector on `add_items` and on `knn_query` (with a `1e-30` guard that
leaves an all-zero vector unchanged, idealised here as the exact
normalisation), stores items under the given labels, and `knn_query`
returns the `k` stored items nearest to the query by
`1 - inner_product`, nearest first.  With the source's parameters
(`M=32`, `ef_construction=200`, `ef=64`) and element counts below `ef`
the search is exact; ties are returned in label order.  `k` is a
`size_t`: a negative Python int fails pybind11's argument conversion,
and `k` larger than the element count raises a runtime error. -/

/-- Some fixed chunk record data. -/
structure ChunkRecord where
  chunkId : String
  docId : String
  text : String
  metadata : List (String × String)
  deriving DecidableEq

/-- Index-level status snapshot (`IndexStatus`). -/
structure IndexStatus where
  sname : String
  model : String
  policy : String
  documents : Nat
  chunks : Nat
  deriving DecidableEq

/-- State of an `hnswlib.Index`: dimensionality, current capacity, and
the stored `(label, vector)` items in insertion order (the stored
vectors are the normalised copies made by the binding). -/
structure HnswState where
  dim : Nat
  capacity : Nat
  items : List (Nat × List ℝ)

/-- Dot product of two real vectors. -/
def dotList (a b : List ℝ) : ℝ := (List.zipWith (fun x y => x * y) a b).sum

/-- The binding's cosine-space vector normalisation (idealised: the
`1e-30` guard makes an all-zero vector map to itself). -/
noncomputable def hnswNormalize (v : List ℝ) : List ℝ :=
  if l2norm v = 0 then v else v.map fun x => x / l2norm v

/-- Distance computed by `knn_query` in cosine space between a (raw)
query vector and a stored (already normalised) item vector. -/
noncomputable def knnDist (q stored : List ℝ) : ℝ :=
  1 - dotList (hnswNormalize q) stored

/-- Cosine distance between two raw vectors, the quantity the spec calls
`cosine_distance`. -/
noncomputable def cosineDistance (a b : List ℝ) : ℝ :=
  1 - dotList (hnswNormalize a) (hnswNormalize b)

/-- Result ordering of `knn_query`: ascending distance, ties by label. -/
def knnLE (p q : Nat × ℝ) : Prop :=
  p.2 < q.2 ∨ (p.2 = q.2 ∧ p.1 ≤ q.1)

noncomputable instance : DecidableRel knnLE := fun p q =>
  inferInstanceAs (Decidable (_ ∨ _))

/-- Model of `hnswlib.Index.knn_query` for one query vector: label and
distance of the `k` nearest stored items, nearest first.  A negative `k`
fails the `size_t` conversion; `k` beyond the element count raises. -/
noncomputable def knnQuery (h : HnswState) (q : List ℝ) (k : Int) :
    Except String (List (Nat × ℝ)) :=
  if k < 0 then .error "TypeError: knn_query k must be a non-negative size_t"
  else if h.items.length < k.toNat then
    .error "RuntimeError: cannot return the results in a contiguous 2D array"
  else
    .ok (((h.items.map fun p => (p.1, knnDist q p.2)).insertionSort knnLE).take
      k.toNat)

/-- State of one `VectorIndex`. -/
structure VectorIndexState where
  vname : String
  policy : ChunkingPolicy
  model : EmbeddingModel
  records : List ChunkRecord
  documentIds : List String
  hnsw : Option HnswState
  maxElements : Nat
  nextLabel : Nat

/-- `VectorIndex.__init__`. -/
def initIndex (name : String) (policy : ChunkingPolicy) (model : EmbeddingModel) :
    VectorIndexState :=
  { vname := name, policy := policy, model := model, records := []
    documentIds := [], hnsw := none, maxElements := 2048, nextLabel := 0 }

/-- `VectorIndex._ensure_index`: create the hnsw index on first use. -/
def ensureIndex (st : VectorIndexState) : VectorIndexState :=
  match st.hnsw with
  | some _ => st
  | none => { st with hnsw := some ⟨st.model.dimensions, st.maxElements, []⟩ }

/-- The doubling loop of `VectorIndex._grow_if_needed`
(`while self._max_elements < required: self._max_elements *= 2`). -/
def growCap (m required : Nat) : Nat :=
  if h : 0 < m ∧ m < required then growCap (2 * m) required else m
termination_by required - m
decreasing_by
  have h1 := h.1
  have h2 := h.2
  omega

/-- `VectorIndex._grow_if_needed`. -/
def growIfNeeded (st : VectorIndexState) (additional : Nat) : VectorIndexState :=
  match st.hnsw with
  | none => st
  | some h =>
    let required := st.nextLabel + additional
    if required ≤ st.maxElements then st
    else
      let m := growCap st.maxElements required
      { st with maxElements := m, hnsw := some { h with capacity := m } }

/-- Python set insertion (`self._document_ids.add(doc_id)`), modelled on
a duplicate-free list; only the cardinality of the set is observable. -/
def insertDocId (l : List String) (d : String) : List String :=
  if d ∈ l then l else l ++ [d]

/-- `VectorIndex.add_document`: chunk the text, append one record and
one freshly labelled vector per chunk, then (if any chunk was produced)
create/grow the hnsw index, insert the vectors, and add the document id. -/
noncomputable def VectorIndexState.add_document (st : VectorIndexState)
    (docId text : String) (metadata : List (String × String)) : VectorIndexState :=
  let chunks := st.policy.chunk text
  let newRecords := chunks.enum.map fun ic =>
    { chunkId := docId ++ ":" ++ toString ic.1, docId := docId, text := ic.2
      metadata := ("order", toString ic.1) :: metadata }
  let vectors := chunks.map st.model.embedText
  let labels := List.range' st.nextLabel chunks.length
  let st1 := { st with records := st.records ++ newRecords
                       nextLabel := st.nextLabel + chunks.length }
  if chunks.isEmpty then st1
  else
    let st2 := growIfNeeded (ensureIndex st1) chunks.length
    { st2 with
      hnsw := st2.hnsw.map fun h =>
        { h with items := h.items ++ labels.zip (vectors.map hnswNormalize) }
      documentIds := insertDocId st2.documentIds docId }

/-- `VectorIndex.query`. -/
noncomputable def VectorIndexState.query (st : VectorIndexState) (text : String)
    (topK : Int) : Except String (List (ℝ × ChunkRecord)) :=
  match st.hnsw with
  | none => .ok []
  | some h =>
    if st.nextLabel = 0 then .ok []
    else do
      let v := st.model.embedText text
      let pairs ← knnQuery h v (min topK (st.nextLabel : Int))
      .ok (pairs.filterMap fun p => (st.records.get? p.1).map fun r => (1 - p.2, r))

/-- `VectorIndex.status`. -/
def VectorIndexState.status (st : VectorIndexState) : IndexStatus :=
  { sname := st.vname, model := st.model.mname, policy := st.policy.pname
    documents := st.documentIds.length, chunks := st.records.length }

/-! ## Service facade (`api.py`) -/

/-- Association-list lookup by key (model of Python `dict` access). -/
def lookupA {α : Type} (l : List (String × α)) (k : String) : Option α :=
  l.lookup k

/-- Association-list removal (model of `dict.pop(name, None)` /
`del d[name]`). -/
def eraseA {α : Type} (l : List (String × α)) (k : String) : List (String × α) :=
  l.filter fun p => p.1 ≠ k

/-- Association-list insertion/overwrite (model of `d[name] = value`). -/
def insertA {α : Type} (l : List (String × α)) (k : String) (v : α) :
    List (String × α) :=
  eraseA l k ++ [(k, v)]

/-- A persisted index manifest (the JSON payload written by
`_write_manifest`).  `model` is optional because `_load_manifests` reads
it with `payload.get("model")`; `chunkConfig` carries
`(window_chars, overlap_chars)` when present. -/
structure Manifest where
  mfName : String
  model : Option String
  policy : String
  documents : List String
  chunkConfig : Option (Int × Int)
  deriving DecidableEq

/-- The model names registered in `IndexingService.__init__`
(the keys of `self._models`). -/
def knownModelNames : List String :=
  ["text-mini", "text-e5", "text-bge", "text-hash"]

/-- Whether a manifest's recorded model name resolves
(`model_name in self._models`; an absent field yields `None`, which is
never a key). -/
def knownModel : Option String → Bool
  | some m => knownModelNames.contains m
  | none => false

/-- `IndexingService._load_manifests`: iterate over the persisted
manifest files; a manifest whose model does not resolve is skipped and
its file unlinked; the rest populate `self._manifests`.  Returns the
loaded manifest map and the files remaining on disk. -/
def loadManifests (files : List Manifest) :
    List (String × Manifest) × List Manifest :=
  files.foldl
    (fun acc m =>
      if knownModel m.model then (insertA acc.1 m.mfName m, acc.2 ++ [m])
      else acc)
    ([], [])

/-- Python `value or default` for the optional chunk parameters of
`_resolve_policy`: `None` and `0` are falsy and yield the default. -/
def pyOrInt (x : Option Int) (d : Int) : Int :=
  match x with
  | none => d
  | some v => if v = 0 then d else v

/-- Python `value or default` for an optional string (the `name`
parameter of `build_index`): `None` and the empty string are falsy and
yield the default. -/
def pyOrStr (x : Option String) (d : String) : String :=
  match x with
  | none => d
  | some s => if s.isEmpty then d else s

/-- The models map built by `IndexingService.__init__`.  `B` supplies the
external sentence-transformers backend for a checkpoint name
(its dimensionality and embedding function). -/
noncomputable def modelsMap (B : String → Nat × (String → List ℝ)) :
    List (String × EmbeddingModel) :=
  [("text-mini", .sentenceTransformer "text-mini"
      "sentence-transformers/all-MiniLM-L6-v2"
      (B "sentence-transformers/all-MiniLM-L6-v2").1
      (B "sentence-transformers/all-MiniLM-L6-v2").2),
   ("text-e5", .sentenceTransformer "text-e5" "intfloat/e5-small-v2"
      (B "intfloat/e5-small-v2").1 (B "intfloat/e5-small-v2").2),
   ("text-bge", .sentenceTransformer "text-bge" "BAAI/bge-small-en-v1.5"
      (B "BAAI/bge-small-en-v1.5").1 (B "BAAI/bge-small-en-v1.5").2),
   ("text-hash", .hashed "text-hash" 128)]

/-- `IndexingService._resolve_policy`.  The Python `lookup` dict literal
eagerly constructs all three chunkers, so an invalid sliding
configuration raises even when another policy is requested. -/
def resolvePolicy (name : String) (windowChars overlapChars : Option Int) :
    Except String ChunkingPolicy := do
  let sw ← mkSliding (pyOrInt windowChars 800) (pyOrInt overlapChars 200)
  if name = "sliding" then .ok (.sliding sw)
  else if name = "paragraph" then .ok .paragraph
  else if name = "document" then .ok .wholeDocument
  else .error ("Unknown policy: " ++ name)

/-- `IndexingService._resolve_model`. -/
noncomputable def resolveModel (B : String → Nat × (String → List ℝ))
    (name : String) : Except String EmbeddingModel :=
  match lookupA (modelsMap B) name with
  | some m => .ok m
  | none => .error ("Unknown model: " ++ name)

/-- Service state: the document registry contents (doc id → loadable
text), the materialised indexes, and the loaded manifests. -/
structure ServiceState where
  corpus : List (String × String)
  indexes : List (String × VectorIndexState)
  manifests : List (String × Manifest)

/-- `CorpusManager.list_documents`, projected to ids: documents sorted
by `doc_id`. -/
def corpusDocIds (svc : ServiceState) : List String :=
  (svc.corpus.map Prod.fst).insertionSort (fun a b => a ≤ b)

/-- Replaying `add_document` for a document list (the loops of
`build_index` and `_ensure_index_loaded`), with `load_content` failing
for a document id the registry cannot supply. -/
noncomputable def addDocuments (corpus : List (String × String))
    (policyName modelName : String) (docs : List String)
    (idx : VectorIndexState) : Except String VectorIndexState :=
  docs.foldlM
    (fun acc d =>
      match lookupA corpus d with
      | none => .error ("Unknown document: " ++ d)
      | some text => .ok (acc.add_document d text
          [("policy", policyName), ("model", modelName)]))
    idx

/-- `IndexingService._ensure_index_loaded`: return the materialised
index, or lazily rebuild it from its manifest. -/
noncomputable def ensureIndexLoaded (B : String → Nat × (String → List ℝ))
    (svc : ServiceState) (name : String) :
    Except String (ServiceState × VectorIndexState) :=
  match lookupA svc.indexes name with
  | some idx => .ok (svc, idx)
  | none =>
    match lookupA svc.manifests name with
    | none => .error ("Unknown index: " ++ name)
    | some m => do
      let policyObj ← resolvePolicy m.policy (m.chunkConfig.map Prod.fst)
        (m.chunkConfig.map Prod.snd)
      let modelName ← match m.model with
        | some s => Except.ok s
        | none => Except.error "KeyError: model"
      let modelObj ← resolveModel B modelName
      let idx0 := initIndex name policyObj modelObj
      let idx ← addDocuments svc.corpus m.policy modelName m.documents idx0
      .ok ({ svc with indexes := insertA svc.indexes name idx }, idx)

/-- `IndexingService.build_index`: resolve policy and model, discard any
materialised index of that name, rebuild it from scratch over the target
documents (`documents or` all registered documents), write the manifest,
and return the status. -/
noncomputable def buildIndex (B : String → Nat × (String → List ℝ))
    (svc : ServiceState) (model policy : String)
    (documents : Option (List String)) (name : Option String)
    (windowChars overlapChars : Option Int) :
    Except String (ServiceState × IndexStatus) := do
  let policyObj ← resolvePolicy policy windowChars overlapChars
  let modelObj ← resolveModel B model
  let indexName := pyOrStr name (model ++ "_" ++ policy)
  let svc1 := { svc with indexes := eraseA svc.indexes indexName }
  let targetDocs := match documents with
    | some ds => if ds.isEmpty then corpusDocIds svc else ds
    | none => corpusDocIds svc
  let idx0 := initIndex indexName policyObj modelObj
  let idx ← addDocuments svc.corpus policy model targetDocs idx0
  let manifest : Manifest :=
    { mfName := indexName, model := some model, policy := policy
      documents := targetDocs
      chunkConfig := match policyObj with
        | .sliding c => some ((c.windowChars : Int), (c.overlapChars : Int))
        | _ => none }
  let svc2 := { svc1 with indexes := insertA svc1.indexes indexName idx
                          manifests := insertA svc1.manifests indexName manifest }
  .ok (svc2, idx.status)

/-! ## Helper lemmas -/

/-- Reduction of `Except` bind on a success value. -/
@[simp] theorem exceptBind_ok {ε α β : Type} (a : α) (f : α → Except ε β) :
    (Except.ok a >>= f) = f a := rfl

/-- Reduction of `Except` bind on an error value. -/
@[simp] theorem exceptBind_error {ε α β : Type} (e : ε) (f : α → Except ε β) :
    ((Except.error e : Except ε α) >>= f) = Except.error e := rfl

/-- Characterisation of the sliding-window constructor. -/
theorem mkSliding_ok_iff (W O : Int) (c : Sliding) :
    mkSliding W O = .ok c ↔
      (0 < W ∧ 0 ≤ O ∧ O < W ∧ c = ⟨W.toNat, O.toNat⟩) := by
  unfold mkSliding
  split_ifs with h1 h2 h3
  · simp only [reduceCtorEq, false_iff]; intro h; omega
  · simp only [reduceCtorEq, false_iff]; intro h; omega
  · simp only [reduceCtorEq, false_iff]; intro h; omega
  · simp only [Except.ok.injEq]
    constructor
    · intro h; exact ⟨by omega, by omega, by omega, h.symm⟩
    · intro h; exact h.2.2.2.symm

/-! ## Claim C9 -/

/-- C9: constructing a sliding-window chunker succeeds exactly for
configurations with `window_chars > 0` and
`0 <= overlap_chars < window_chars`; every other pair fails at
construction with a configuration error.  A successful construction
stores the validated parameters with `overlap < window`, so the
chunker's step `window - overlap` is positive and `chunk` (a total
function in this model) can never fail later. -/
theorem claim_C9 (W O : Int) :
    ((∃ c, mkSliding W O = .ok c) ↔ (0 < W ∧ 0 ≤ O ∧ O < W)) ∧
    (∀ c, mkSliding W O = .ok c →
      c.windowChars = W.toNat ∧ c.overlapChars = O.toNat ∧
      0 < c.windowChars ∧ c.overlapChars < c.windowChars) ∧
    (¬(0 < W ∧ 0 ≤ O ∧ O < W) → ∃ msg, mkSliding W O = .error msg) := by
  refine ⟨⟨fun hc => ?_, fun h => ?_⟩, fun c hc => ?_, fun h => ?_⟩
  · obtain ⟨c, hc⟩ := hc
    have h := (mkSliding_ok_iff W O c).mp hc
    exact ⟨h.1, h.2.1, h.2.2.1⟩
  · exact ⟨⟨W.toNat, O.toNat⟩,
      (mkSliding_ok_iff W O _).mpr ⟨h.1, h.2.1, h.2.2, rfl⟩⟩
  · obtain ⟨hw, ho, hwo, rfl⟩ := (mkSliding_ok_iff W O c).mp hc
    refine ⟨rfl, rfl, ?_, ?_⟩
    · show 0 < W.toNat; omega
    · show O.toNat < W.toNat; omega
  · unfold mkSliding
    split_ifs with h1 h2 h3
    · exact ⟨_, rfl⟩
    · exact ⟨_, rfl⟩
    · exact ⟨_, rfl⟩
    · exact absurd ⟨by omega, by omega, by omega⟩ h

/-- Witness for C9 at the concrete inputs `(10, 2)` (valid) and `(5, 7)`
(invalid). -/
theorem claim_C9_witness :
    (∃ c, mkSliding 10 2 = .ok c) ∧
    ((⟨10, 2⟩ : Sliding).windowChars = (10 : Int).toNat ∧
      (⟨10, 2⟩ : Sliding).overlapChars = (2 : Int).toNat ∧
      0 < (⟨10, 2⟩ : Sliding).windowChars ∧
      (⟨10, 2⟩ : Sliding).overlapChars < (⟨10, 2⟩ : Sliding).windowChars) ∧
    (∃ msg, mkSliding 5 7 = .error msg) :=
  ⟨(claim_C9 10 2).1.mpr (by decide),
    (claim_C9 10 2).2.1 ⟨10, 2⟩ (by rfl),
    (claim_C9 5 7).2.2 (by decide)⟩

/-! ## Claim C10 -/

/-- C10: through the service facade, a supplied `window_chars=0` or
`overlap_chars=0` is silently replaced by the defaults 800 and 200
(`value or default` treats `0` as absent), no configuration error is
raised for the value `0`, and a sliding-window overlap of `0` can never
be configured through the service: any successfully resolved sliding
policy has a non-zero overlap.  Consequently `build_index` behaves
identically for explicit zeros and for absent parameters. -/
theorem claim_C10 :
    (resolvePolicy "sliding" (some 0) (some 0) = .ok (.sliding ⟨800, 200⟩)) ∧
    (∀ w o, resolvePolicy "sliding" w (some 0) = resolvePolicy "sliding" w none ∧
      resolvePolicy "sliding" (some 0) o = resolvePolicy "sliding" none o) ∧
    (∀ name w o c, resolvePolicy name w o = .ok (.sliding c) →
      c.overlapChars ≠ 0 ∧ c.windowChars ≠ 0) ∧
    (∀ B svc model policy ds nm,
      buildIndex B svc model policy ds nm (some 0) (some 0) =
        buildIndex B svc model policy ds nm none none) := by
  refine ⟨rfl, fun w o => ⟨rfl, rfl⟩, fun name w o c hc => ?_, fun _ _ _ _ _ _ => rfl⟩
  unfold resolvePolicy at hc
  cases hm : mkSliding (pyOrInt w 800) (pyOrInt o 200) with
  | error e => rw [hm] at hc; simp at hc
  | ok sw =>
    rw [hm] at hc
    simp only [exceptBind_ok] at hc
    obtain ⟨hw, ho, hwo, rfl⟩ := (mkSliding_ok_iff _ _ sw).mp hm
    have hsw : (⟨(pyOrInt w 800).toNat, (pyOrInt o 200).toNat⟩ : Sliding) = c := by
      split_ifs at hc <;> simp_all
    subst hsw
    constructor
    · show (pyOrInt o 200).toNat ≠ 0
      cases o with
      | none => decide
      | some v =>
        simp only [pyOrInt] at *
        split_ifs at * <;> omega
    · show (pyOrInt w 800).toNat ≠ 0
      omega

/-- Witness for C10's resolved-policy clause at the concrete input
`(name := "sliding", window := none, overlap := some 0)`. -/
theorem claim_C10_witness :
    (⟨800, 200⟩ : Sliding).overlapChars ≠ 0 ∧
      (⟨800, 200⟩ : Sliding).windowChars ≠ 0 :=
  claim_C10.2.2.1 "sliding" none (some 0) ⟨800, 200⟩ (by rfl)

/-! ## Claim C4 -/

/-- Stripping never lengthens a string. -/
theorem pyStrip_length_le (l : List Char) : (pyStrip l).length ≤ l.length := by
  unfold pyStrip
  simp only [List.length_reverse]
  calc (List.dropWhile pyIsSpace (List.dropWhile pyIsSpace l).reverse).length
      ≤ (List.dropWhile pyIsSpace l).reverse.length :=
        (List.dropWhile_sublist _).length_le
    _ = (List.dropWhile pyIsSpace l).length := by simp
    _ ≤ l.length := (List.dropWhile_sublist _).length_le

/-- Counting lemma for `rawStarts`. -/
theorem rawStarts_length (L s : Nat) :
    (rawStarts L s).length = (L + s - 1) / s := by
  simp [rawStarts]

/-- Lower bound: `L ≤ ((L + s - 1) / s) * s` for `0 < s`, `0 < L`. -/
theorem le_ceilDiv_mul (L s : Nat) (hs : 0 < s) (hL : 0 < L) :
    L ≤ ((L + s - 1) / s) * s := by
  have hm := Nat.div_add_mod (L + s - 1) s
  have hr : (L + s - 1) % s < s := Nat.mod_lt _ hs
  have hc : s * ((L + s - 1) / s) = ((L + s - 1) / s) * s := Nat.mul_comm _ _
  omega

/-- Upper bound: `((L + s - 1) / s) * s ≤ L + s - 1`. -/
theorem ceilDiv_mul_le (L s : Nat) :
    ((L + s - 1) / s) * s ≤ L + s - 1 :=
  Nat.div_mul_le_self _ _

/-- The number of raw windows is the ceiling of `L / s` (stated over `ℚ`). -/
theorem ceilDiv_eq_rat_ceil (L s : Nat) (hs : 0 < s) (hL : 0 < L) :
    (((L + s - 1) / s : Nat) : ℤ) = ⌈(L : ℚ) / (s : ℚ)⌉ := by
  have h1 : L ≤ ((L + s - 1) / s) * s := le_ceilDiv_mul L s hs hL
  have h2 : ((L + s - 1) / s) * s ≤ L + s - 1 := ceilDiv_mul_le L s
  have hsQ : (0 : ℚ) < (s : ℚ) := by exact_mod_cast hs
  generalize hq : (L + s - 1) / s = q at h1 h2
  have c1 : (L : ℚ) ≤ (q : ℚ) * (s : ℚ) := by exact_mod_cast h1
  have h2n : q * s + 1 ≤ L + s := by omega
  have c2 : (q : ℚ) * (s : ℚ) + 1 ≤ (L : ℚ) + (s : ℚ) := by exact_mod_cast h2n
  symm
  rw [Int.ceil_eq_iff]
  constructor
  · rw [sub_lt_iff_lt_add]
    have : (L : ℚ) / (s : ℚ) + 1 = ((L : ℚ) + (s : ℚ)) / (s : ℚ) := by
      field_simp
    rw [this, lt_div_iff hsQ]
    push_cast
    linarith
  · rw [div_le_iff hsQ]
    push_cast
    linarith

/-- Index characterisation of `rawStarts`. -/
theorem rawStarts_get (L s i : Nat) (h : i < (L + s - 1) / s) :
    (rawStarts L s)[i]? = some (i * s) := by
  unfold rawStarts
  rw [List.getElem?_map, List.getElem?_range h]
  rfl

/-- Membership characterisation of `rawStarts` for `0 < s`, `0 < L`: the
multiples of the step below `L`. -/
theorem rawStarts_mem_iff (L s x : Nat) (hs : 0 < s) (hL : 0 < L) :
    x ∈ rawStarts L s ↔ (∃ k, x = k * s) ∧ x < L := by
  unfold rawStarts
  simp only [List.mem_map, List.mem_range]
  constructor
  · rintro ⟨i, hi, rfl⟩
    refine ⟨⟨i, rfl⟩, ?_⟩
    have : (i + 1) * s ≤ ((L + s - 1) / s) * s := Nat.mul_le_mul_right s hi
    have h2 := ceilDiv_mul_le L s
    have h3 : (i + 1) * s = i * s + s := by ring
    omega
  · rintro ⟨⟨k, rfl⟩, hx⟩
    refine ⟨k, ?_, rfl⟩
    by_contra hk
    push_neg at hk
    have : ((L + s - 1) / s) * s ≤ k * s := Nat.mul_le_mul_right s hk
    have h1 := le_ceilDiv_mul L s hs hL
    omega

/-- C4: for every valid sliding-window configuration and every input with
non-empty stripped content of length `L`, the chunker builds exactly
`⌈L / (W − O)⌉` raw windows before empty-trim filtering (count stated
both in the `(L + step − 1) / step` form and as a rational ceiling), the
window start offsets are `0, step, 2·step, …` while below `L`, every
produced segment has length at most `W`, and the spec's concrete example
(`window=10, overlap=2` on `"abcdefghijklmnop"`) yields exactly
`["abcdefghij", "ijklmnop"]`. -/
theorem claim_C4 (W O : Int) (c : Sliding) (hmk : mkSliding W O = .ok c)
    (text : String) (hne : ¬(pyStrip text.data).isEmpty) :
    ((slidingRawWindows c (pyStrip text.data)).length =
      ((pyStrip text.data).length + (c.windowChars - c.overlapChars) - 1) /
        (c.windowChars - c.overlapChars)) ∧
    (((slidingRawWindows c (pyStrip text.data)).length : ℤ) =
      ⌈((pyStrip text.data).length : ℚ) /
        ((c.windowChars - c.overlapChars : Nat) : ℚ)⌉) ∧
    (∀ i, i < (slidingRawWindows c (pyStrip text.data)).length →
      (rawStarts (pyStrip text.data).length
        (c.windowChars - c.overlapChars))[i]? =
        some (i * (c.windowChars - c.overlapChars))) ∧
    (∀ x, x ∈ rawStarts (pyStrip text.data).length
        (c.windowChars - c.overlapChars) ↔
      (∃ k, x = k * (c.windowChars - c.overlapChars)) ∧
        x < (pyStrip text.data).length) ∧
    (∀ seg ∈ slidingChunk c text, seg.length ≤ c.windowChars) ∧
    slidingChunk ⟨10, 2⟩ "abcdefghijklmnop" = ["abcdefghij", "ijklmnop"] := by
  obtain ⟨hw, ho, hwo, rfl⟩ := (mkSliding_ok_iff W O c).mp hmk
  have hstep : 0 < W.toNat - O.toNat := by omega
  have hL : 0 < (pyStrip text.data).length := by
    cases h : pyStrip text.data with
    | nil => rw [h] at hne; simp at hne
    | cons a l => simp [h]
  refine ⟨?_, ?_, ?_, ?_, ?_, by decide⟩
  · simp [slidingRawWindows, rawStarts_length]
  · rw [show (slidingRawWindows ⟨W.toNat, O.toNat⟩ (pyStrip text.data)).length =
      ((pyStrip text.data).length + (W.toNat - O.toNat) - 1) /
        (W.toNat - O.toNat) by simp [slidingRawWindows, rawStarts_length]]
    exact ceilDiv_eq_rat_ceil _ _ hstep hL
  · intro i hi
    apply rawStarts_get
    rw [show (slidingRawWindows ⟨W.toNat, O.toNat⟩ (pyStrip text.data)).length =
      ((pyStrip text.data).length + (W.toNat - O.toNat) - 1) /
        (W.toNat - O.toNat) by simp [slidingRawWindows, rawStarts_length]] at hi
    exact hi
  · intro x
    exact rawStarts_mem_iff _ _ x hstep hL
  · intro seg hseg
    unfold slidingChunk at hseg
    rw [if_neg (by simpa using hne)] at hseg
    rw [if_neg (by simp; omega)] at hseg
    simp only [List.mem_map, List.mem_filter] at hseg
    obtain ⟨l, ⟨hl, -⟩, rfl⟩ := hseg
    simp only [List.mem_map, slidingRawWindows] at hl
    obtain ⟨w, ⟨s', hs', rfl⟩, rfl⟩ := hl
    show (pyStrip (((pyStrip text.data).drop s').take W.toNat)).length ≤ W.toNat
    exact le_trans (pyStrip_length_le _)
      (le_trans (List.length_take_le _ _) le_rfl)

/-- Witness for C4 at `window=10`, `overlap=2`, input `"abcdefghijklmnop"`. -/
theorem claim_C4_witness :
    (slidingRawWindows ⟨10, 2⟩ (pyStrip "abcdefghijklmnop".data)).length =
      ((pyStrip "abcdefghijklmnop".data).length + (10 - 2) - 1) / (10 - 2) :=
  (claim_C4 10 2 ⟨10, 2⟩ (by rfl) "abcdefghijklmnop" (by decide)).1

/-! ## Claim C3 -/

/-- Incrementing preserves the vector length. -/
theorem incAt_length (v : List Nat) (i : Nat) : (incAt v i).length = v.length := by
  simp [incAt]

/-- Incrementing an in-range entry increments the total count. -/
theorem incAt_sum (v : List Nat) (i : Nat) (h : i < v.length) :
    (incAt v i).sum = v.sum + 1 := by
  induction v generalizing i with
  | nil => simp at h
  | cons a t ih =>
    cases i with
    | zero => simp [incAt]; omega
    | succ j =>
      have hj : j < t.length := by simpa using h
      have : incAt (a :: t) (j + 1) = a :: incAt t j := by simp [incAt]
      rw [this, List.sum_cons, List.sum_cons, ih j hj]
      omega

/-- The bucket-count fold preserves length. -/
theorem foldInc_length (name : String) (d : Nat) (toks : List String) :
    ∀ v : List Nat,
      (toks.foldl (fun v tok => incAt v (bucketOf name d tok)) v).length =
        v.length := by
  induction toks with
  | nil => intro v; rfl
  | cons t ts ih => intro v; rw [List.foldl_cons, ih, incAt_length]

/-- The count vector has the configured dimensionality. -/
theorem countVector_length (name : String) (d : Nat) (text : String) :
    (countVector name d text).length = d := by
  unfold countVector
  rw [foldInc_length, List.length_replicate]

/-- For positive dimensionality, the total bucket count equals the number
of tokens. -/
theorem countVector_sum (name : String) (d : Nat) (text : String)
    (hd : 0 < d) : (countVector name d text).sum = (hashTokens text).length := by
  suffices h : ∀ (toks : List String) (v : List Nat), v.length = d →
      (toks.foldl (fun v tok => incAt v (bucketOf name d tok)) v).sum =
        v.sum + toks.length by
    unfold countVector
    rw [h (hashTokens text) _ (List.length_replicate _ _)]
    simp
  intro toks
  induction toks with
  | nil => intro v _; simp
  | cons t ts ih =>
    intro v hv
    have hb : bucketOf name d t < v.length := by
      rw [hv]; exact Nat.mod_lt _ hd
    rw [List.foldl_cons, ih _ (by rw [incAt_length, hv]), incAt_sum _ _ hb,
      List.length_cons]
    omega

/-- Squared norms are non-negative. -/
theorem l2normSq_nonneg (v : List ℝ) : 0 ≤ l2normSq v := by
  apply List.sum_nonneg
  intro x hx
  obtain ⟨y, -, rfl⟩ := List.mem_map.mp hx
  exact mul_self_nonneg y

/-- Squared norm after dividing every entry by a scalar. -/
theorem l2normSq_map_div (v : List ℝ) (c : ℝ) :
    l2normSq (v.map fun x => x / c) = l2normSq v / (c * c) := by
  induction v with
  | nil => simp [l2normSq]
  | cons a t ih =>
    unfold l2normSq at *
    rw [List.map_cons, List.map_cons, List.map_cons, List.sum_cons,
      List.sum_cons, ih, div_mul_div_comm, div_add_div_same]

/-- A vector with a non-zero entry has positive squared norm. -/
theorem l2normSq_pos_of_mem (v : List ℝ) (x : ℝ) (hx : x ∈ v) (hxx : x ≠ 0) :
    0 < l2normSq v := by
  have hmem : x * x ∈ v.map fun y => y * y := List.mem_map.mpr ⟨x, hx, rfl⟩
  have hle : x * x ≤ l2normSq v := by
    apply List.single_le_sum _ _ hmem
    intro y hy
    obtain ⟨z, -, rfl⟩ := List.mem_map.mp hy
    exact mul_self_nonneg z
  exact lt_of_lt_of_le (mul_self_pos.mpr hxx) hle

/-- Dividing a vector of positive squared norm by its Euclidean norm
yields a unit vector. -/
theorem l2norm_map_div_self (v : List ℝ) (hpos : 0 < l2normSq v) :
    l2norm (v.map fun x => x / l2norm v) = 1 := by
  unfold l2norm
  rw [l2normSq_map_div]
  rw [show Real.sqrt (l2normSq v) * Real.sqrt (l2normSq v) = l2normSq v from
    Real.mul_self_sqrt (le_of_lt hpos)]
  rw [div_self (ne_of_gt hpos), Real.sqrt_one]

/-- C3: the hashing embedding tokenizes on whitespace with lowercasing,
buckets each token by the first 4 bytes (big-endian) of
`sha256("{model_name}:{token}")` modulo the dimensionality, and
L2-normalises the count vector with a zero norm replaced by 1.
Consequently the embedding has the configured dimensionality, is
deterministic (a pure function of model name and text), maps a
token-free input to the all-zero vector, and maps any input with at
least one token to a vector of Euclidean norm 1. -/
theorem claim_C3 (name text : String) (d : Nat) (hd : 0 < d) :
    (hashedEmbed name d text).length = d ∧
    (∀ text₂, text = text₂ → hashedEmbed name d text = hashedEmbed name d text₂) ∧
    (hashTokens text = [] → hashedEmbed name d text = List.replicate d 0) ∧
    (hashTokens text ≠ [] → l2norm (hashedEmbed name d text) = 1) := by
  refine ⟨?_, ?_, ?_, ?_⟩
  · unfold hashedEmbed floatVec
    rw [List.length_map, List.length_map, countVector_length]
  · rintro _ rfl; rfl
  · intro h
    have hcv : countVector name d text = List.replicate d 0 := by
      unfold countVector
      rw [h]
      rfl
    unfold hashedEmbed floatVec
    rw [hcv, List.map_replicate, Nat.cast_zero, List.map_replicate, zero_div]
  · intro h
    have hsum : (countVector name d text).sum ≠ 0 := by
      rw [countVector_sum name d text hd]
      simpa [List.length_eq_zero] using h
    have hex : ∃ n ∈ countVector name d text, n ≠ 0 := by
      by_contra hall
      push_neg at hall
      exact hsum (List.sum_eq_zero hall)
    obtain ⟨n, hn, hn0⟩ := hex
    have hxmem : ((n : Nat) : ℝ) ∈ floatVec (countVector name d text) :=
      List.mem_map.mpr ⟨n, hn, rfl⟩
    have hpos : 0 < l2normSq (floatVec (countVector name d text)) :=
      l2normSq_pos_of_mem _ _ hxmem (Nat.cast_ne_zero.mpr hn0)
    have hnorm0 : l2norm (floatVec (countVector name d text)) ≠ 0 := by
      unfold l2norm
      exact ne_of_gt (Real.sqrt_pos.mpr hpos)
    unfold hashedEmbed
    rw [show pyNorm (floatVec (countVector name d text)) =
        l2norm (floatVec (countVector name d text)) by
      unfold pyNorm; rw [if_neg hnorm0]]
    exact l2norm_map_div_self _ hpos

/-- Witness for C3 at dimensionality 128 with model name `"text-hash"`
and input `"hello world"`. -/
theorem claim_C3_witness :
    (hashedEmbed "text-hash" 128 "hello world").length = 128 ∧
      l2norm (hashedEmbed "text-hash" 128 "hello world") = 1 :=
  ⟨(claim_C3 "text-hash" "hello world" 128 (by decide)).1,
    (claim_C3 "text-hash" "hello world" 128 (by decide)).2.2.2 (by decide)⟩

/-! ## Claim C8 -/

/-- When segmentation yields no chunks, `add_document` leaves the state
unchanged. -/
theorem add_document_nil (st : VectorIndexState) (docId text : String)
    (metadata : List (String × String)) (h : st.policy.chunk text = []) :
    st.add_document docId text metadata = st := by
  unfold VectorIndexState.add_document
  rw [h]
  simp

/-- C8: if segmentation yields zero segments, `add_document` is a no-op:
the state (records, labels, vectors, represented documents) is unchanged
and so is `status()`. -/
theorem claim_C8 (st : VectorIndexState) (docId text : String)
    (metadata : List (String × String)) (h : st.policy.chunk text = []) :
    st.add_document docId text metadata = st ∧
    (st.add_document docId text metadata).status = st.status := by
  have hmain := add_document_nil st docId text metadata h
  exact ⟨hmain, by rw [hmain]⟩

/-- Witness for C8: adding a whitespace-only document to a fresh
whole-document index. -/
theorem claim_C8_witness :
    (initIndex "i" ChunkingPolicy.wholeDocument
        (.hashed "text-hash" 128)).add_document "d" "   " [] =
      initIndex "i" ChunkingPolicy.wholeDocument (.hashed "text-hash" 128) :=
  (claim_C8 _ "d" "   " [] (by decide)).1


/-! ## Index invariants (used by C5 and C2) -/

/-- The stored `(label, vector)` items of an index (empty before the
hnsw index is first created). -/
def itemsOf (st : VectorIndexState) : List (Nat × List ℝ) :=
  st.hnsw.elim [] HnswState.items

/-- Projection lemmas for `_ensure_index`. -/
theorem ensureIndex_proj (s : VectorIndexState) :
    (ensureIndex s).records = s.records ∧
    (ensureIndex s).nextLabel = s.nextLabel ∧
    (ensureIndex s).documentIds = s.documentIds ∧
    itemsOf (ensureIndex s) = itemsOf s ∧
    (ensureIndex s).hnsw.isSome = true := by
  unfold ensureIndex itemsOf
  cases hh : s.hnsw <;> simp [hh]

/-- Projection lemmas for `_grow_if_needed`. -/
theorem growIfNeeded_proj (s : VectorIndexState) (a : Nat) :
    (growIfNeeded s a).records = s.records ∧
    (growIfNeeded s a).nextLabel = s.nextLabel ∧
    (growIfNeeded s a).documentIds = s.documentIds ∧
    itemsOf (growIfNeeded s a) = itemsOf s ∧
    (growIfNeeded s a).hnsw.isSome = s.hnsw.isSome := by
  unfold growIfNeeded itemsOf
  cases hh : s.hnsw with
  | none => simp [hh]
  | some h =>
    by_cases hreq : s.nextLabel + a ≤ s.maxElements <;> simp [hreq, hh]

/-- Characterisation of `add_document` when segmentation produces at
least one chunk: records, labels and items are appended, and the
document id is inserted. -/
theorem add_document_spec (st : VectorIndexState) (doc text : String)
    (md : List (String × String)) (hch : st.policy.chunk text ≠ []) :
    (st.add_document doc text md).hnsw.isSome = true ∧
    itemsOf (st.add_document doc text md) = itemsOf st ++
      (List.range' st.nextLabel (st.policy.chunk text).length).zip
        (((st.policy.chunk text).map st.model.embedText).map hnswNormalize) ∧
    (st.add_document doc text md).records =
      st.records ++ ((st.policy.chunk text).enum.map fun ic =>
        { chunkId := doc ++ ":" ++ toString ic.1, docId := doc, text := ic.2
          metadata := ("order", toString ic.1) :: md }) ∧
    (st.add_document doc text md).nextLabel =
      st.nextLabel + (st.policy.chunk text).length ∧
    (st.add_document doc text md).documentIds =
      insertDocId st.documentIds doc := by
  unfold VectorIndexState.add_document
  rw [if_neg (by simpa using hch)]
  obtain ⟨he1, he2, he3, he4, he5⟩ := ensureIndex_proj
    { st with
      records := st.records ++ ((st.policy.chunk text).enum.map fun ic =>
        { chunkId := doc ++ ":" ++ toString ic.1, docId := doc, text := ic.2
          metadata := ("order", toString ic.1) :: md })
      nextLabel := st.nextLabel + (st.policy.chunk text).length }
  obtain ⟨hg1, hg2, hg3, hg4, hg5⟩ := growIfNeeded_proj
    (ensureIndex
      { st with
        records := st.records ++ ((st.policy.chunk text).enum.map fun ic =>
          { chunkId := doc ++ ":" ++ toString ic.1, docId := doc, text := ic.2
            metadata := ("order", toString ic.1) :: md })
        nextLabel := st.nextLabel + (st.policy.chunk text).length })
    (st.policy.chunk text).length
  rw [he5] at hg5
  cases hgw : (growIfNeeded
    (ensureIndex
      { st with
        records := st.records ++ ((st.policy.chunk text).enum.map fun ic =>
          { chunkId := doc ++ ":" ++ toString ic.1, docId := doc, text := ic.2
            metadata := ("order", toString ic.1) :: md })
        nextLabel := st.nextLabel + (st.policy.chunk text).length })
    (st.policy.chunk text).length).hnsw with
  | none => rw [hgw] at hg5; simp at hg5
  | some hw =>
    have hitems : hw.items = itemsOf st := by
      have : itemsOf (growIfNeeded
        (ensureIndex
          { st with
            records := st.records ++ ((st.policy.chunk text).enum.map fun ic =>
              { chunkId := doc ++ ":" ++ toString ic.1, docId := doc, text := ic.2
                metadata := ("order", toString ic.1) :: md })
            nextLabel := st.nextLabel + (st.policy.chunk text).length })
        (st.policy.chunk text).length) = hw.items := by
        unfold itemsOf
        rw [hgw]
        rfl
      rw [← this, hg4, he4]
      rfl
    refine ⟨?_, ?_, ?_, ?_, ?_⟩
    · show ((Option.map _ _).isSome = true)
      rw [hgw]
      rfl
    · show itemsOf _ = _
      unfold itemsOf
      show (Option.map _ _).elim _ _ = _
      rw [hgw]
      exact congrArg (fun l => l ++ _) hitems
    · show (growIfNeeded _ _).records = _
      rw [hg1, he1]
    · show (growIfNeeded _ _).nextLabel = _
      rw [hg2, he2]
    · show insertDocId ((growIfNeeded _ _).documentIds) _ = _
      rw [hg3, he3]

/-- Concatenating `range n` with `range'` starting at `n` extends the
range. -/
theorem range_append_range' (n k : Nat) :
    List.range n ++ List.range' n k = List.range (n + k) := by
  calc List.range n ++ List.range' n k
      = List.range' 0 n ++ List.range' (0 + n) k := by
        rw [List.range_eq_range', Nat.zero_add]
    _ = List.range' 0 (k + n) := List.range'_append_1 0 n k
    _ = List.range (n + k) := by rw [List.range_eq_range', Nat.add_comm]

/-- The binding's normalisation produces a unit or zero vector. -/
theorem l2norm_hnswNormalize (v : List ℝ) :
    l2norm (hnswNormalize v) = 1 ∨ l2norm (hnswNormalize v) = 0 := by
  unfold hnswNormalize
  by_cases h : l2norm v = 0
  · right; rw [if_pos h]; exact h
  · left
    rw [if_neg h]
    apply l2norm_map_div_self
    have hnn := l2normSq_nonneg v
    rcases lt_or_eq_of_le hnn with hlt | heq
    · exact hlt
    · exact absurd (by unfold l2norm; rw [← heq, Real.sqrt_zero]) h

/-- Structural invariant of a `VectorIndex` maintained by
`add_document` from the initial state: the hnsw index exists exactly
when a label was assigned, `len(records) == next_label`, the stored
labels are exactly `range(next_label)` in insertion order, and every
stored vector is a normalised copy (unit norm, or the zero vector). -/
def VIInv (st : VectorIndexState) : Prop :=
  (st.hnsw = none ↔ st.nextLabel = 0) ∧
  st.records.length = st.nextLabel ∧
  (itemsOf st).map Prod.fst = List.range st.nextLabel ∧
  ∀ p ∈ itemsOf st, l2norm p.2 = 1 ∨ l2norm p.2 = 0

/-- The initial index state satisfies the invariant. -/
theorem viInv_init (name : String) (policy : ChunkingPolicy)
    (model : EmbeddingModel) : VIInv (initIndex name policy model) := by
  refine ⟨by simp [initIndex], rfl, by simp [itemsOf, initIndex], ?_⟩
  intro p hp
  simp [itemsOf, initIndex] at hp

/-- `add_document` preserves the index invariant. -/
theorem viInv_add_document (st : VectorIndexState) (hinv : VIInv st)
    (doc text : String) (md : List (String × String)) :
    VIInv (st.add_document doc text md) := by
  by_cases hch : st.policy.chunk text = []
  · rw [add_document_nil st doc text md hch]; exact hinv
  · obtain ⟨hsome, hitems, hrec, hnext, hdocs⟩ :=
      add_document_spec st doc text md hch
    have hk : 0 < (st.policy.chunk text).length := List.length_pos.mpr hch
    refine ⟨⟨fun hn => ?_, fun h0 => ?_⟩, ?_, ?_, ?_⟩
    · rw [hn] at hsome; simp at hsome
    · rw [hnext] at h0; omega
    · rw [hrec, hnext, List.length_append, hinv.2.1, List.length_map,
        List.enum_length]
    · rw [hitems, hnext, List.map_append, hinv.2.2.1,
        List.map_fst_zip _ _ (by simp), range_append_range']
    · intro p hp
      rw [hitems] at hp
      rcases List.mem_append.mp hp with h | h
      · exact hinv.2.2.2 p h
      · obtain ⟨a, b⟩ := p
        obtain ⟨-, h2⟩ := List.mem_zip h
        obtain ⟨v, -, rfl⟩ := List.mem_map.mp h2
        exact l2norm_hnswNormalize v

/-! ## Claim C5 -/

/-- Replaying a sequence of `add_document` calls on a fresh index. -/
noncomputable def applyOps (name : String) (policy : ChunkingPolicy)
    (model : EmbeddingModel)
    (ops : List (String × String × List (String × String))) :
    VectorIndexState :=
  ops.foldl (fun st op => st.add_document op.1 op.2.1 op.2.2)
    (initIndex name policy model)

/-- Any state reached by a sequence of `add_document` calls satisfies the
invariant. -/
theorem viInv_applyOps (name : String) (policy : ChunkingPolicy)
    (model : EmbeddingModel)
    (ops : List (String × String × List (String × String))) :
    VIInv (applyOps name policy model ops) := by
  unfold applyOps
  suffices h : ∀ st, VIInv st →
      VIInv (ops.foldl (fun st op => st.add_document op.1 op.2.1 op.2.2) st) by
    exact h _ (viInv_init name policy model)
  induction ops with
  | nil => intro st h; exact h
  | cons op rest ih =>
    intro st h
    exact ih _ (viInv_add_document st h op.1 op.2.1 op.2.2)

/-- C5: for every sequence of `add_document` calls, labels are assigned
monotonically increasing from zero and never reused (the labels held by
the vector store are exactly `0, 1, …, next_label − 1`, strictly
increasing and duplicate-free), and after every insertion batch
`len(records) == next_label`. -/
theorem claim_C5 (name : String) (policy : ChunkingPolicy)
    (model : EmbeddingModel)
    (ops : List (String × String × List (String × String))) :
    (applyOps name policy model ops).records.length =
      (applyOps name policy model ops).nextLabel ∧
    (itemsOf (applyOps name policy model ops)).map Prod.fst =
      List.range (applyOps name policy model ops).nextLabel ∧
    List.Chain' (· < ·)
      ((itemsOf (applyOps name policy model ops)).map Prod.fst) ∧
    ((itemsOf (applyOps name policy model ops)).map Prod.fst).Nodup := by
  obtain ⟨-, h2, h3, -⟩ := viInv_applyOps name policy model ops
  refine ⟨h2, h3, ?_, ?_⟩
  · rw [h3]; exact List.Pairwise.chain' (List.pairwise_lt_range _)
  · rw [h3]; exact List.nodup_range _

/-! ## Claim C7 -/

/-- An index that has received one insertion (one chunk from the
document `"hello"`), used to exhibit the behaviour of a negative
`top_k`. -/
noncomputable def negKState : VectorIndexState :=
  (initIndex "i" ChunkingPolicy.wholeDocument
    (.hashed "text-hash" 128)).add_document "d" "hello" []

/-- Counterexample to C7 as stated: on an index that has received an
insertion, `query` with `top_k = -1` does not return an empty result; it
propagates the `hnswlib` binding's rejection of a negative `size_t`
argument as an error. -/
theorem claim_C7_counterexample :
    ∃ e, negKState.query "x" (-1) = Except.error e := by
  have hch : (initIndex "i" ChunkingPolicy.wholeDocument
      (.hashed "text-hash" 128)).policy.chunk "hello" = ["hello"] := by decide
  obtain ⟨hsome, -, -, hnext, -⟩ := add_document_spec
    (initIndex "i" ChunkingPolicy.wholeDocument (.hashed "text-hash" 128))
    "d" "hello" [] (by rw [hch]; simp)
  have h1 : negKState.nextLabel = 1 := by
    show ((initIndex "i" ChunkingPolicy.wholeDocument
      (.hashed "text-hash" 128)).add_document "d" "hello" []).nextLabel = 1
    rw [hnext, hch]
    rfl
  cases hh : negKState.hnsw with
  | none =>
    unfold negKState at hh
    rw [hh] at hsome
    simp at hsome
  | some hw =>
    refine ⟨"TypeError: knn_query k must be a non-negative size_t", ?_⟩
    unfold VectorIndexState.query
    rw [hh]
    dsimp only
    rw [if_neg (by rw [h1]; omega)]
    unfold knnQuery
    rw [if_pos (lt_of_le_of_lt (min_le_left _ _) (by omega : (-1 : Int) < 0))]
    rfl

/-- C7 (amended): with `top_k <= 0`, `query` returns an empty result
without error whenever the index has never received an insertion (for
any `top_k`), and whenever `top_k = 0` (on any index); but a negative
`top_k` on an index holding vectors is rejected by the k-NN backend
(see the counterexample). -/
theorem claim_C7 (st : VectorIndexState) (t : String) (k : Int)
    (hinv : VIInv st) (hk : k ≤ 0) :
    (st.nextLabel = 0 → st.query t k = .ok []) ∧
    (k = 0 → st.query t k = .ok []) := by
  constructor
  · intro h0
    cases hh : st.hnsw with
    | none => unfold VectorIndexState.query; rw [hh]
    | some h =>
      unfold VectorIndexState.query
      rw [hh]
      dsimp only
      rw [if_pos h0]
  · rintro rfl
    cases hh : st.hnsw with
    | none => unfold VectorIndexState.query; rw [hh]
    | some h =>
      unfold VectorIndexState.query
      rw [hh]
      dsimp only
      by_cases h0 : st.nextLabel = 0
      · rw [if_pos h0]
      · rw [if_neg h0]
        rw [show min (0 : Int) ((st.nextLabel : Nat) : Int) = 0 from
          min_eq_left (by omega)]
        unfold knnQuery
        rw [if_neg (by omega), if_neg (by simp)]
        simp

/-- Witness for the amended C7 at a fresh index with `top_k = -5`. -/
theorem claim_C7_witness :
    (initIndex "i" ChunkingPolicy.wholeDocument
      (.hashed "text-hash" 128)).query "t" (-5) = .ok [] :=
  (claim_C7 _ "t" (-5)
    (viInv_init "i" ChunkingPolicy.wholeDocument (.hashed "text-hash" 128))
    (by decide)).1 rfl

/-! ## Claim C2 -/

instance : IsTotal (Nat × ℝ) knnLE :=
  ⟨fun p q => by
    unfold knnLE
    rcases lt_trichotomy p.2 q.2 with h | h | h
    · exact Or.inl (Or.inl h)
    · rcases le_total p.1 q.1 with h1 | h1
      · exact Or.inl (Or.inr ⟨h, h1⟩)
      · exact Or.inr (Or.inr ⟨h.symm, h1⟩)
    · exact Or.inr (Or.inl h)⟩

instance : IsTrans (Nat × ℝ) knnLE :=
  ⟨fun a b c hab hbc => by
    unfold knnLE at *
    rcases hab with h1 | ⟨h1, h1a⟩ <;> rcases hbc with h2 | ⟨h2, h2a⟩
    · exact Or.inl (lt_trans h1 h2)
    · exact Or.inl (h2 ▸ h1)
    · exact Or.inl (h1 ▸ h2)
    · exact Or.inr ⟨h1.trans h2, le_trans h1a h2a⟩⟩

/-- Pairwise relations survive `filterMap` when the extraction respects
them. -/
theorem pairwise_filterMap_of_pairwise {α β : Type} (R : α → α → Prop)
    (S : β → β → Prop) (g : α → Option β)
    (hg : ∀ a b, R a b → ∀ x, g a = some x → ∀ y, g b = some y → S x y) :
    ∀ l : List α, l.Pairwise R → (l.filterMap g).Pairwise S := by
  intro l
  induction l with
  | nil => intro _; simp
  | cons a t ih =>
    intro hl
    rw [List.pairwise_cons] at hl
    obtain ⟨ha, ht⟩ := hl
    rw [List.filterMap_cons]
    cases hga : g a with
    | none => exact ih ht
    | some x =>
      rw [List.pairwise_cons]
      refine ⟨?_, ih ht⟩
      intro y hy
      obtain ⟨b, hb, hgb⟩ := List.mem_filterMap.mp hy
      exact hg a b (ha b hb) x hga y hgb

/-- `filterMap` preserves length when the function never fails. -/
theorem length_filterMap_of_isSome {α β : Type} (g : α → Option β) :
    ∀ l : List α, (∀ a ∈ l, (g a).isSome) →
      (l.filterMap g).length = l.length := by
  intro l
  induction l with
  | nil => intro _; rfl
  | cons a t ih =>
    intro h
    rw [List.filterMap_cons]
    cases hga : g a with
    | none =>
      have := h a (by simp)
      rw [hga] at this
      simp at this
    | some x =>
      rw [List.length_cons, ih (fun b hb => h b (by simp [hb]))]
      rfl

/-- A vector that is already normalised (or zero) is untouched by the
binding's normalisation. -/
theorem hnswNormalize_eq_self (v : List ℝ)
    (h : l2norm v = 1 ∨ l2norm v = 0) : hnswNormalize v = v := by
  unfold hnswNormalize
  rcases h with h | h
  · rw [if_neg (by rw [h]; norm_num), h]
    simp
  · rw [if_pos h]

/-- On stored (normalised) vectors the distance computed by `knn_query`
is exactly the cosine distance. -/
theorem knnDist_eq_cosineDistance (q s : List ℝ)
    (hs : l2norm s = 1 ∨ l2norm s = 0) : knnDist q s = cosineDistance q s := by
  unfold knnDist cosineDistance
  rw [hnswNormalize_eq_self s hs]

/-- C2: for every index satisfying the reachable-state invariant and
every positive `top_k`, `query` returns the empty sequence when the
index has never received an insertion; otherwise it succeeds with
exactly `min(top_k, number_of_vectors)` results, ordered by descending
score, each score being `1 − cosine_distance` between the embedded
query and the stored vector of the returned record.  In particular, an
index holding exactly 3 chunks queried with `top_k = 10` returns
exactly `min(10, 3) = 3` results. -/
theorem claim_C2 (st : VectorIndexState) (t : String) (k : Int)
    (hinv : VIInv st) (hk : 0 < k) :
    (st.nextLabel = 0 → st.query t k = .ok []) ∧
    (st.nextLabel ≠ 0 → ∃ res, st.query t k = .ok res ∧
      res.length = min k.toNat st.nextLabel ∧
      res.Pairwise (fun a b => b.1 ≤ a.1) ∧
      ∀ pr ∈ res, ∃ lab v, (lab, v) ∈ itemsOf st ∧
        st.records.get? lab = some pr.2 ∧
        pr.1 = 1 - cosineDistance (st.model.embedText t) v) := by
  obtain ⟨hiff, hlen, hlabels, hnormed⟩ := hinv
  constructor
  · intro h0
    cases hh : st.hnsw with
    | none => unfold VectorIndexState.query; rw [hh]
    | some h =>
      unfold VectorIndexState.query
      rw [hh]
      dsimp only
      rw [if_pos h0]
  · intro h0
    cases hh : st.hnsw with
    | none => exact absurd (hiff.mp hh) h0
    | some h =>
      have hitems : itemsOf st = h.items := by unfold itemsOf; rw [hh]; rfl
      have hilen : h.items.length = st.nextLabel := by
        have := congrArg List.length hlabels
        rw [hitems] at this
        simpa using this
      unfold VectorIndexState.query
      rw [hh]
      dsimp only
      rw [if_neg h0]
      have hkk : (0 : Int) < min k ((st.nextLabel : Nat) : Int) := by omega
      have hkk2 : (min k ((st.nextLabel : Nat) : Int)).toNat ≤ h.items.length := by
        rw [hilen]; omega
      unfold knnQuery
      rw [if_neg (by omega), if_neg (by omega)]
      rw [exceptBind_ok]
      refine ⟨_, rfl, ?_, ?_, ?_⟩
      · rw [length_filterMap_of_isSome]
        · rw [List.length_take, List.length_insertionSort, List.length_map,
            hilen]
          omega
        · intro p hp
          have hmem : p ∈ (h.items.map fun q =>
              (q.1, knnDist (st.model.embedText t) q.2)).insertionSort knnLE :=
            List.mem_of_mem_take hp
          rw [List.mem_insertionSort] at hmem
          obtain ⟨q, hq, rfl⟩ := List.mem_map.mp hmem
          have hq1 : q.1 ∈ h.items.map Prod.fst := List.mem_map.mpr ⟨q, hq, rfl⟩
          rw [← hitems, hlabels, List.mem_range] at hq1
          have hq2 : q.1 < st.records.length := by omega
          rw [List.get?_eq_get hq2]
          simp
      · apply pairwise_filterMap_of_pairwise knnLE _ _ ?_ _ ?_
        · intro a b hab x hx y hy
          obtain ⟨ra, hra, rfl⟩ := Option.map_eq_some'.mp hx
          obtain ⟨rb, hrb, rfl⟩ := Option.map_eq_some'.mp hy
          show 1 - b.2 ≤ 1 - a.2
          rcases hab with hlt | ⟨heq, -⟩
          · linarith
          · rw [heq]
        · exact List.Pairwise.sublist (List.take_sublist _ _)
            (List.sorted_insertionSort knnLE _)
      · intro pr hpr
        obtain ⟨p, hp, hgp⟩ := List.mem_filterMap.mp hpr
        have hmem : p ∈ (h.items.map fun q =>
            (q.1, knnDist (st.model.embedText t) q.2)).insertionSort knnLE :=
          List.mem_of_mem_take hp
        rw [List.mem_insertionSort] at hmem
        obtain ⟨q, hq, rfl⟩ := List.mem_map.mp hmem
        obtain ⟨r, hr, hpr2⟩ := Option.map_eq_some'.mp hgp
        refine ⟨q.1, q.2, by rw [hitems]; exact hq, ?_, ?_⟩
        · rw [hr, ← hpr2]
        · rw [← hpr2]
          have := hnormed q (by rw [hitems]; exact hq)
          rw [knnDist_eq_cosineDistance _ _ this]

/-- Norm of an all-zero vector. -/
theorem l2norm_replicate_zero (n : Nat) :
    l2norm (List.replicate n (0 : ℝ)) = 0 := by
  unfold l2norm l2normSq
  rw [List.map_replicate]
  simp

/-- A concrete index state holding exactly 3 chunks (zero vectors are
valid stored vectors: they are fixed points of the binding's
normalisation). -/
noncomputable def threeChunkIndex : VectorIndexState :=
  { vname := "i", policy := .wholeDocument, model := .hashed "text-hash" 128
    records := [{ chunkId := "d:0", docId := "d", text := "a", metadata := [] },
                { chunkId := "d:1", docId := "d", text := "b", metadata := [] },
                { chunkId := "d:2", docId := "d", text := "c", metadata := [] }]
    documentIds := ["d"]
    hnsw := some { dim := 128, capacity := 2048
                   items := [(0, List.replicate 128 0),
                             (1, List.replicate 128 0),
                             (2, List.replicate 128 0)] }
    maxElements := 2048, nextLabel := 3 }

/-- The 3-chunk state satisfies the reachable-state invariant. -/
theorem threeChunkIndex_inv : VIInv threeChunkIndex := by
  refine ⟨by simp [threeChunkIndex], rfl, rfl, ?_⟩
  intro p hp
  right
  simp only [threeChunkIndex, itemsOf, Option.elim_some, List.mem_cons,
    List.not_mem_nil, or_false] at hp
  rcases hp with rfl | rfl | rfl <;> exact l2norm_replicate_zero 128

/-- Witness for C2: the 3-chunk index queried with `top_k = 10` yields
exactly `min(10, 3) = 3` results in descending score order. -/
theorem claim_C2_witness :
    ∃ res, threeChunkIndex.query "q" 10 = .ok res ∧
      res.length = min (10 : Int).toNat threeChunkIndex.nextLabel ∧
      res.Pairwise (fun a b => b.1 ≤ a.1) ∧
      ∀ pr ∈ res, ∃ lab v, (lab, v) ∈ itemsOf threeChunkIndex ∧
        threeChunkIndex.records.get? lab = some pr.2 ∧
        pr.1 = 1 - cosineDistance (threeChunkIndex.model.embedText "q") v :=
  (claim_C2 threeChunkIndex "q" 10 threeChunkIndex_inv (by decide)).2
    (by decide)

/-! ## Claim C6 -/

/-- Accumulator-generalised characterisation of the `_load_manifests`
fold. -/
theorem loadManifests_aux (files : List Manifest) :
    ∀ acc : List (String × Manifest) × List Manifest,
      (files.foldl
        (fun acc m =>
          if knownModel m.model then (insertA acc.1 m.mfName m, acc.2 ++ [m])
          else acc) acc).2 =
        acc.2 ++ files.filter (fun m => knownModel m.model) ∧
      ((∀ p ∈ acc.1, knownModel p.2.model = true) →
        ∀ p ∈ (files.foldl
          (fun acc m =>
            if knownModel m.model then (insertA acc.1 m.mfName m, acc.2 ++ [m])
            else acc) acc).1, knownModel p.2.model = true) := by
  induction files with
  | nil => intro acc; exact ⟨by simp, fun h => h⟩
  | cons m fs ih =>
    intro acc
    by_cases hm : knownModel m.model
    · rw [List.foldl_cons, if_pos hm, List.filter_cons, if_pos (by simp [hm])]
      obtain ⟨ih1, ih2⟩ := ih (insertA acc.1 m.mfName m, acc.2 ++ [m])
      constructor
      · rw [ih1]
        simp
      · intro hacc
        apply ih2
        intro p hp
        unfold insertA eraseA at hp
        rcases List.mem_append.mp hp with h | h
        · exact hacc p (List.mem_of_mem_filter h)
        · rw [List.mem_singleton.mp h]
          exact hm
    · rw [List.foldl_cons, if_neg hm, List.filter_cons,
        if_neg (by simpa using hm)]
      exact ih acc

/-- C6 (amended): `_load_manifests` never fails (it is a total function
of the persisted payloads); exactly the manifests whose recorded model
name resolves are kept on disk (every stale-model manifest's file is
removed), and every manifest loaded into the registry has a resolvable
model name.  Policy names are not checked at load time (see the
counterexample: a manifest with an unknown policy is kept and makes the
later manifest-resolve step fail). -/
theorem claim_C6 (files : List Manifest) :
    (loadManifests files).2 = files.filter (fun m => knownModel m.model) ∧
    (∀ m ∈ files, knownModel m.model = false → m ∉ (loadManifests files).2) ∧
    (∀ p ∈ (loadManifests files).1, knownModel p.2.model = true) := by
  obtain ⟨h1, h2⟩ := loadManifests_aux files ([], [])
  refine ⟨by simpa using h1, ?_, h2 (by simp)⟩
  intro m hm hfalse hmem
  rw [show (loadManifests files).2 =
      files.filter (fun m => knownModel m.model) by simpa using h1] at hmem
  have := List.of_mem_filter hmem
  rw [hfalse] at this
  exact Bool.noConfusion this

/-- Witness for C6 at a two-manifest store: the stale-model manifest is
dropped and unlinked, the resolvable one is kept. -/
theorem claim_C6_witness :
    (loadManifests
        [{ mfName := "a", model := some "gone", policy := "document"
           documents := [], chunkConfig := none },
         { mfName := "b", model := some "text-hash", policy := "document"
           documents := [], chunkConfig := none }]).2 =
      [{ mfName := "b", model := some "text-hash", policy := "document"
         documents := [], chunkConfig := none }] ∧
    ({ mfName := "a", model := some "gone", policy := "document"
       documents := [], chunkConfig := none } : Manifest) ∉
      (loadManifests
        [{ mfName := "a", model := some "gone", policy := "document"
           documents := [], chunkConfig := none },
         { mfName := "b", model := some "text-hash", policy := "document"
           documents := [], chunkConfig := none }]).2 :=
  ⟨(claim_C6 _).1.trans (by decide),
    (claim_C6 _).2.1 _ (by decide) (by decide)⟩

/-- A persisted manifest whose model resolves but whose policy does
not. -/
def bogusPolicyManifest : Manifest :=
  { mfName := "n1", model := some "text-hash", policy := "bogus"
    documents := [], chunkConfig := none }

/-- Counterexample to C6 as stated: a manifest whose policy name does
not resolve is neither discarded at load (its file survives and it is
loaded into the registry) nor tolerated later: the manifest-resolve
step (`_ensure_index_loaded`) fails on it. -/
theorem claim_C6_counterexample :
    (loadManifests [bogusPolicyManifest]).2 = [bogusPolicyManifest] ∧
    (loadManifests [bogusPolicyManifest]).1 = [("n1", bogusPolicyManifest)] ∧
    ∃ e, ensureIndexLoaded (fun _ => (0, fun _ => []))
        { corpus := [], indexes := []
          manifests := (loadManifests [bogusPolicyManifest]).1 } "n1" =
      .error e :=
  ⟨by decide, by decide, ⟨"Unknown policy: bogus", rfl⟩⟩

/-! ## Claim C1 -/

/-- Looking up the key just written by `insertA` finds the new value. -/
theorem lookupA_insertA_self {α : Type} (l : List (String × α)) (k : String)
    (v : α) : lookupA (insertA l k v) k = some v := by
  unfold lookupA insertA eraseA
  induction l with
  | nil => simp [List.lookup_cons]
  | cons p t ih =>
    rw [List.filter_cons]
    by_cases h : p.1 = k
    · rw [if_neg (by simp [h])]
      exact ih
    · rw [if_pos (by simp [h])]
      cases p with
      | mk pk pv =>
        rw [List.cons_append, List.lookup_cons]
        have : (k == pk) = false := by
          simp only at h
          exact beq_false_of_ne (fun e => h e.symm)
        rw [this]
        exact ih

/-- Looking up an erased key fails. -/
theorem lookupA_eraseA_self {α : Type} (l : List (String × α)) (k : String) :
    lookupA (eraseA l k) k = none := by
  unfold lookupA eraseA
  induction l with
  | nil => simp
  | cons p t ih =>
    rw [List.filter_cons]
    by_cases h : p.1 = k
    · rw [if_neg (by simp [h])]
      exact ih
    · rw [if_pos (by simp [h])]
      cases p with
      | mk pk pv =>
        rw [List.lookup_cons]
        have : (k == pk) = false := by
          simp only at h
          exact beq_false_of_ne (fun e => h e.symm)
        rw [this]
        exact ih

/-- Pure replay of the document-insertion loop (used to name the value
the fallible loop produces when every document loads). -/
noncomputable def addDocumentsPure (corpus : List (String × String))
    (policyName modelName : String) (docs : List String)
    (idx : VectorIndexState) : VectorIndexState :=
  docs.foldl
    (fun acc d =>
      match lookupA corpus d with
      | none => acc
      | some text => acc.add_document d text
          [("policy", policyName), ("model", modelName)])
    idx

/-- When every target document loads, the insertion loop succeeds and
computes the pure replay. -/
theorem addDocuments_ok (corpus : List (String × String))
    (pn mn : String) (docs : List String)
    (h : ∀ d ∈ docs, (lookupA corpus d).isSome) (idx : VectorIndexState) :
    addDocuments corpus pn mn docs idx =
      .ok (addDocumentsPure corpus pn mn docs idx) := by
  unfold addDocuments addDocumentsPure
  induction docs generalizing idx with
  | nil => rfl
  | cons d ds ih =>
    cases hl : lookupA corpus d with
    | none =>
      have := h d (by simp)
      rw [hl] at this
      simp at this
    | some text =>
      rw [List.foldlM_cons, List.foldl_cons]
      simp only [hl]
      rw [exceptBind_ok]
      exact ih (fun d hd => h d (by simp [hd])) _


/-- Value of `build_index(model="text-hash", policy="document",
documents=ds, name=nm)` when every target document loads: the index is
registered, and the manifest written, under the resolved index name
`pyOrStr nm "text-hash_document"` (Python `name or default`). -/
theorem buildIndex_hashDoc (B : String → Nat × (String → List ℝ))
    (svc : ServiceState) (ds : List String) (nm : Option String)
    (hds : ds ≠ []) (h : ∀ d ∈ ds, (lookupA svc.corpus d).isSome) :
    buildIndex B svc "text-hash" "document" (some ds) nm none none =
      .ok ({ corpus := svc.corpus
             indexes := insertA
               (eraseA svc.indexes (pyOrStr nm ("text-hash" ++ "_" ++ "document")))
               (pyOrStr nm ("text-hash" ++ "_" ++ "document"))
               (addDocumentsPure svc.corpus "document" "text-hash" ds
                 (initIndex (pyOrStr nm ("text-hash" ++ "_" ++ "document"))
                   .wholeDocument (.hashed "text-hash" 128)))
             manifests := insertA svc.manifests
               (pyOrStr nm ("text-hash" ++ "_" ++ "document"))
               { mfName := pyOrStr nm ("text-hash" ++ "_" ++ "document")
                 model := some "text-hash", policy := "document"
                 documents := ds, chunkConfig := none } },
        (addDocumentsPure svc.corpus "document" "text-hash" ds
          (initIndex (pyOrStr nm ("text-hash" ++ "_" ++ "document"))
            .wholeDocument (.hashed "text-hash" 128))).status) := by
  have htgt : (if ds.isEmpty then corpusDocIds svc else ds) = ds := by
    rw [if_neg (by simpa using hds)]
  unfold buildIndex
  simp only [show resolvePolicy "document" none none =
      .ok ChunkingPolicy.wholeDocument from rfl,
    show resolveModel B "text-hash" =
      .ok (EmbeddingModel.hashed "text-hash" 128) from rfl,
    exceptBind_ok]
  rw [htgt, addDocuments_ok svc.corpus "document" "text-hash" ds h]
  rw [exceptBind_ok]

/-- Counterexample to C1 as stated (for every name): with the empty
string as name, `build_index` succeeds but registers the index under the
default name `"text-hash_document"` (Python's falsy `name or default`),
so discarding the in-memory indexes and resolving `get("")` fails with
an unknown-index error instead of reconstructing the index. -/
theorem claim_C1_counterexample :
    ∃ svc1 st,
      buildIndex (fun _ => (0, fun _ => []))
          { corpus := [("d1", "hello world")], indexes := [], manifests := [] }
          "text-hash" "document" (some ["d1"]) (some "") none none =
        .ok (svc1, st) ∧
      ∃ e, ensureIndexLoaded (fun _ => (0, fun _ => []))
          { svc1 with indexes := eraseA svc1.indexes "" } "" = .error e := by
  refine ⟨_, _,
    buildIndex_hashDoc (fun _ => (0, fun _ => []))
      { corpus := [("d1", "hello world")], indexes := [], manifests := [] }
      ["d1"] (some "") (by decide) (by decide),
    "Unknown index: ", ?_⟩
  rfl

/-- C1 (amended): round-trip durability holds for every non-empty index
name.  After a successful
`build(name, model="text-hash", policy="document", documents=ds)` with
`name ≠ ""` (success is guaranteed once every target document's content
loads), discarding the in-memory index and resolving the name again
through `_ensure_index_loaded` lazily rebuilds an index equal to the
original: same `status()`, bit-for-bit the same chunk ids and ordinals,
and identical query results for every query text and `top_k`.  A
supplied empty-string name is falsy in `name or default`, so the index
is registered under `"{model}_{policy}"` and `get("")` fails instead
(see the counterexample). -/
theorem claim_C1 (B : String → Nat × (String → List ℝ)) (svc : ServiceState)
    (n : String) (ds : List String) (hn : n ≠ "") (hds : ds ≠ [])
    (h : ∀ d ∈ ds, (lookupA svc.corpus d).isSome) :
    ∃ svc1 st origIdx svc2 idx,
      buildIndex B svc "text-hash" "document" (some ds) (some n) none none =
        .ok (svc1, st) ∧
      lookupA svc1.indexes n = some origIdx ∧
      ensureIndexLoaded B { svc1 with indexes := eraseA svc1.indexes n } n =
        .ok (svc2, idx) ∧
      idx = origIdx ∧
      idx.status = st ∧
      idx.records.map ChunkRecord.chunkId =
        origIdx.records.map ChunkRecord.chunkId ∧
      (∀ q k, idx.query q k = origIdx.query q k) := by
  have hpy : pyOrStr (some n) ("text-hash" ++ "_" ++ "document") = n := by
    unfold pyOrStr
    dsimp only
    rw [if_neg (fun he => hn ((String.isEmpty_iff n).mp he))]
  have hbuild := buildIndex_hashDoc B svc ds (some n) hds h
  rw [hpy] at hbuild
  have hensure : ensureIndexLoaded B
      { corpus := svc.corpus
        indexes := eraseA (insertA (eraseA svc.indexes n) n
          (addDocumentsPure svc.corpus "document" "text-hash" ds
            (initIndex n .wholeDocument (.hashed "text-hash" 128)))) n
        manifests := insertA svc.manifests n
          { mfName := n, model := some "text-hash", policy := "document"
            documents := ds, chunkConfig := none } } n =
      .ok ({ corpus := svc.corpus
             indexes := insertA (eraseA (insertA (eraseA svc.indexes n) n
               (addDocumentsPure svc.corpus "document" "text-hash" ds
                 (initIndex n .wholeDocument (.hashed "text-hash" 128)))) n) n
               (addDocumentsPure svc.corpus "document" "text-hash" ds
                 (initIndex n .wholeDocument (.hashed "text-hash" 128)))
             manifests := insertA svc.manifests n
               { mfName := n, model := some "text-hash", policy := "document"
                 documents := ds, chunkConfig := none } },
        addDocumentsPure svc.corpus "document" "text-hash" ds
          (initIndex n .wholeDocument (.hashed "text-hash" 128))) := by
    unfold ensureIndexLoaded
    dsimp only
    rw [lookupA_eraseA_self, lookupA_insertA_self]
    dsimp only
    simp only [Option.map_none']
    simp only [show resolvePolicy "document" none none =
        .ok ChunkingPolicy.wholeDocument from rfl,
      show resolveModel B "text-hash" =
        .ok (EmbeddingModel.hashed "text-hash" 128) from rfl,
      exceptBind_ok]
    rw [addDocuments_ok svc.corpus "document" "text-hash" ds h]
    rw [exceptBind_ok]
  exact ⟨_, _,
    addDocumentsPure svc.corpus "document" "text-hash" ds
      (initIndex n .wholeDocument (.hashed "text-hash" 128)),
    _, _, hbuild, lookupA_insertA_self _ n _, hensure, rfl, rfl, rfl,
    fun q k => rfl⟩

/-- Witness for the amended C1 at a concrete one-document corpus with a
non-empty index name. -/
theorem claim_C1_witness :
    ∃ svc1 st origIdx svc2 idx,
      buildIndex (fun _ => (0, fun _ => []))
          { corpus := [("d1", "hello world")], indexes := [], manifests := [] }
          "text-hash" "document" (some ["d1"]) (some "idx1") none none =
        .ok (svc1, st) ∧
      lookupA svc1.indexes "idx1" = some origIdx ∧
      ensureIndexLoaded (fun _ => (0, fun _ => []))
          { svc1 with indexes := eraseA svc1.indexes "idx1" } "idx1" =
        .ok (svc2, idx) ∧
      idx = origIdx ∧
      idx.status = st ∧
      idx.records.map ChunkRecord.chunkId =
        origIdx.records.map ChunkRecord.chunkId ∧
      (∀ q k, idx.query q k = origIdx.query q k) :=
  claim_C1 (fun _ => (0, fun _ => []))
    { corpus := [("d1", "hello world")], indexes := [], manifests := [] }
    "idx1" ["d1"] (by decide) (by decide) (by decide)
